import Mathlib

/-!
Verification of the speed-bump kernel module core against its specification.

The development shallowly embeds the C sources:
  src/speed_bump_match.c   - pattern matcher
  src/speed_bump_main.c    - command parser, target registry, sysfs endpoints
  src/speed_bump_uprobe.c  - probe handler, ELF symbol resolver, registration

C strings are modelled as List Char (the characters before the terminating
NUL); raw file bytes as List Nat.  Machine integers are Nat or Int with
explicit reductions modulo two to the width where the C code can wrap.
Kernel services that are outside the core (memory allocation, path lookup,
the uprobe subsystem, the process tree) appear as explicit oracle
parameters, so every theorem quantifies over their outcomes.
-/

set_option maxRecDepth 100000

deriving instance DecidableEq for Except

namespace SpeedBump

/-- C strings: the characters before the terminating NUL. -/
abbrev Str := List Char

/-! ## Errno values (include/uapi/asm-generic/errno-base.h) -/

def ENOENT : Int := 2
def ENOMEM : Int := 12
def EEXIST : Int := 17
def EINVAL : Int := 22
def ENOSPC : Int := 28
def ERANGE : Int := 34
def ENAMETOOLONG : Int := 36

/-! ## String-scanning helpers (linux string.h semantics) -/

/-- Index of the first occurrence of a character: strchr as an index. -/
def strchrIdx (s : Str) (c : Char) : Option Nat :=
  match s with
  | [] => none
  | x :: rest =>
    if x = c then some 0
    else match strchrIdx rest c with
         | some i => some (i + 1)
         | none => none

/-- Index of the first occurrence of a substring: strstr as an index.
strstr with an empty needle returns the haystack itself (index 0). -/
def strstrIdx (hay needle : Str) : Option Nat :=
  match hay with
  | [] => if needle = [] then some 0 else none
  | _ :: rest =>
    if needle.isPrefixOf hay then some 0
    else match strstrIdx rest needle with
         | some i => some (i + 1)
         | none => none

/-! ## Decimal parsing (lib/kstrtox.c semantics, base 10)

kstrtou64 accepts an optional leading plus sign, one or more decimal
digits, and at most one trailing newline; it reports ERANGE on 64-bit
overflow (checked before trailing garbage, as in _kstrtoull) and EINVAL
otherwise on malformed input.  kstrtoll adds an optional leading minus
(taken before the radix parse, without a plus), and kstrtoint narrows
to the 32-bit int range. -/

def natOfDigits (ds : Str) : Nat :=
  ds.foldl (fun a c => a * 10 + (c.toNat - 48)) 0

/-- Shared digit-run parse: _kstrtoull on an already-designated string
(no sign handling).  Returns the value on success. -/
def kstrtoullBody (s : Str) : Except Int Nat :=
  let ds := s.takeWhile (fun c => c.isDigit)
  let rest := s.drop ds.length
  if ds = [] then .error (-EINVAL)
  else if natOfDigits ds ≥ 2 ^ 64 then .error (-ERANGE)
  else
    let rest := match rest with
                | '\n' :: t => t
                | _ => rest
    if rest = [] then .ok (natOfDigits ds) else .error (-EINVAL)

/-- kstrtou64: skip one leading plus, then the shared body. -/
def kstrtou64 (s : Str) : Except Int Nat :=
  match s with
  | '+' :: t => kstrtoullBody t
  | _ => kstrtoullBody s

/-- kstrtoll: a leading minus negates (magnitude up to 2^63); otherwise
as kstrtou64 with the value required to fit in 63 bits. -/
def kstrtoll (s : Str) : Except Int Int :=
  match s with
  | '-' :: t =>
    match kstrtoullBody t with
    | .error e => .error e
    | .ok v => if v > 2 ^ 63 then .error (-ERANGE) else .ok (-(v : Int))
  | _ =>
    match kstrtou64 s with
    | .error e => .error e
    | .ok v => if v ≥ 2 ^ 63 then .error (-ERANGE) else .ok (v : Int)

/-- kstrtoint: kstrtoll narrowed to the int range. -/
def kstrtoint (s : Str) : Except Int Int :=
  match kstrtoll s with
  | .error e => .error e
  | .ok v => if v < -(2 ^ 31) ∨ v > 2 ^ 31 - 1 then .error (-ERANGE) else .ok v

/-! ## Pattern matcher (src/speed_bump_match.c, speed_bump_match_target)

Null pointer arguments are modelled as none.  The C function returns
int 1 or 0; we return Bool. -/

def speed_bump_match_target (pattern path symbol : Option Str) : Bool :=
  match pattern, path, symbol with
  | some pat, some path, some sym =>
    match strchrIdx pat ':' with
    | none => false
    | some ci =>
      let pathPatternLen := ci
      let symbolPattern := pat.drop (ci + 1)
      let isPrefixMatch : Bool :=
        decide (pathPatternLen > 0 ∧ pat[pathPatternLen - 1]? = some '*')
      -- strlen(symbol) == strlen(symbol_pattern) and strncmp over that
      -- length is list equality
      if sym ≠ symbolPattern then false
      else if isPrefixMatch then
        -- strlen(path) >= prefix_len and strncmp over prefix_len
        decide ((pat.take (pathPatternLen - 1)).isPrefixOf path)
      else
        -- strlen(path) == path_pattern_len and strncmp over that length
        decide (path = pat.take pathPatternLen)
  | _, _, _ => false

/-! ## Configuration limits (src/speed_bump.h) -/

def SPEED_BUMP_MAX_TARGETS : Nat := 64
def SPEED_BUMP_MAX_PATH_LEN : Nat := 256
def SPEED_BUMP_MAX_SYMBOL_LEN : Nat := 128
def SPEED_BUMP_MAX_LINE_LEN : Nat := 512
def SPEED_BUMP_MAX_DELAY_NS : Nat := 10000000000
def SPEED_BUMP_DEFAULT_DELAY_NS : Nat := 1000000

/-! ## Command parsing (src/speed_bump_main.c, parse_target_spec) -/

/-- Largest m below n such that the characters of s at positions
m, ..., n-1 all satisfy the predicate: the trailing-trim while loops of
parse_target_spec and remove_target, which step an index down while the
character before it is in the trim set. -/
def trimTrailLen (s : Str) (trimSet : List Char) : Nat → Nat
  | 0 => 0
  | m + 1 =>
    if (s[m]?).any (fun c => decide (c ∈ trimSet)) then
      trimTrailLen s trimSet m
    else m + 1

/-- The pid block of parse_target_spec (lines 132 to 141): given the
remainder after the space and the strstr position of the pid token,
parse the PID after it; a negative PID is invalid; no token means no
filter. -/
def parsePidField (rem : Str) (pidIdx : Option Nat) : Except Int Int :=
  match pidIdx with
  | none => .ok 0
  | some pi =>
    match kstrtoint (rem.drop (pi + 4)) with
    | .error e => .error e
    | .ok pv => if pv < 0 then .error (-EINVAL) else .ok pv

/-- The delay block of parse_target_spec (lines 143 to 168): with a pid
token at a positive offset, the text before it with trailing blanks and
tabs skipped is parsed as the delay when its length fits the 32-byte
stack buffer, and the default delay is used otherwise; with no pid
token the whole remainder is parsed; with the pid token first the
default delay is used. -/
def parseDelayField (rem : Str) (pidIdx : Option Nat)
    (default_delay : Nat) : Except Int Nat :=
  match pidIdx with
  | some pi =>
    if pi > 0 then
      let dl := trimTrailLen rem [' ', '\t'] pi
      if 0 < dl ∧ dl < 32 then kstrtou64 (rem.take dl)
      else .ok default_delay
    else .ok default_delay
  | none => kstrtou64 rem

/-- The combined optional-fields block of parse_target_spec (lines 132
to 168): the PID is parsed first and its failure wins, then the delay;
on success both values are produced. -/
def parseOptionalFields (rem : Str) (default_delay : Nat) :
    Except Int (Nat × Int) :=
  match parsePidField rem (strstrIdx rem ("pid=".toList)) with
  | .error e => .error e
  | .ok pid =>
    match parseDelayField rem (strstrIdx rem ("pid=".toList))
          default_delay with
    | .error e => .error e
    | .ok delay => .ok (delay, pid)

/-- Result of a successful parse_target_spec. -/
structure ParsedSpec where
  path : Str
  symbol : Str
  delay_ns : Nat
  pid_filter : Int
deriving DecidableEq, Repr

/-- parse_target_spec: parse one PATH:SYMBOL [DELAY_NS] [pid=PID] line.
The output buffer sizes path_len and symbol_len and the module-global
default delay are passed explicitly; NULL-pointer guards on the output
parameters have no counterpart for value results and are elided. -/
def parse_target_spec (line : Str) (path_len symbol_len : Nat)
    (default_delay : Nat) : Except Int ParsedSpec :=
  match strchrIdx line ':' with
  | none => .error (-EINVAL)
  | some colon =>
    let plen := colon
    if plen = 0 ∨ plen ≥ path_len then .error (-ENAMETOOLONG)
    else if line.head? ≠ some '/' then .error (-EINVAL)
    else
      let path := line.take plen
      let rest := line.drop (colon + 1)
      match strchrIdx rest ' ' with
      | some space =>
        let slen := space
        if slen = 0 ∨ slen ≥ symbol_len then .error (-ENAMETOOLONG)
        else
          let symbol := rest.take slen
          let rem := rest.drop (space + 1)
          match parseOptionalFields rem default_delay with
          | .error e => .error e
          | .ok (delay, pid) =>
            if delay > SPEED_BUMP_MAX_DELAY_NS then .error (-ERANGE)
            else if symbol.head? ≠ some '_' ∧
                    ¬((symbol.head?).any Char.isAlpha) then .error (-EINVAL)
            else .ok ⟨path, symbol, delay, pid⟩
      | none =>
        let slen := trimTrailLen rest ['\n', '\r'] rest.length
        if slen = 0 ∨ slen ≥ symbol_len then .error (-ENAMETOOLONG)
        else
          let symbol := rest.take slen
          if symbol.head? ≠ some '_' ∧
             ¬((symbol.head?).any Char.isAlpha) then .error (-EINVAL)
          else .ok ⟨path, symbol, default_delay, 0⟩

/-! ## Target registry (src/speed_bump_main.c)

The registry is the mutex-protected control-path state: the target list,
the target count and the default delay.  Since every control operation
runs under speed_bump_mutex, the control path is embedded sequentially.
Kernel allocation and the probe subsystem are oracles: allocOk is the
kzalloc outcome, and regResult carries the verdict of
speed_bump_register_uprobe (an errno on failure, the resolved file
offset on success). -/

structure Target where
  path : Str
  symbol : Str
  delay_ns : Nat
  pid_filter : Int
  offset : Nat
  hit_count : Nat
  total_delay_ns : Nat
deriving DecidableEq, Repr

structure Registry where
  targets : List Target
  target_count : Int
  default_delay : Nat
deriving DecidableEq, Repr

def Registry.initWith (d : Nat) : Registry := ⟨[], 0, d⟩

def Registry.init : Registry :=
  Registry.initWith SPEED_BUMP_DEFAULT_DELAY_NS

/-- find_target: first list entry whose path and symbol match. -/
def find_target (targets : List Target) (path symbol : Str) : Option Target :=
  targets.find? (fun t => decide (t.path = path ∧ t.symbol = symbol))

/-- add_target: parse, reject duplicates and capacity overflows, then
allocate, register the uprobe and only then append to the list.
regRet is the int speed_bump_register_uprobe returns (0 on success) and
regOff the offset it stored into the target on success. -/
def add_target (r : Registry) (spec : Str) (allocOk : Bool)
    (regRet : Int) (regOff : Nat) : Int × Registry :=
  match parse_target_spec spec SPEED_BUMP_MAX_PATH_LEN SPEED_BUMP_MAX_SYMBOL_LEN
        r.default_delay with
  | .error e => (e, r)
  | .ok ps =>
    if (find_target r.targets ps.path ps.symbol).isSome then (-EEXIST, r)
    else if r.target_count ≥ (SPEED_BUMP_MAX_TARGETS : Int) then (-ENOSPC, r)
    else if ¬allocOk then (-ENOMEM, r)
    else if regRet ≠ 0 then (regRet, r)
    else
      (0, { r with
            targets := r.targets ++
              [⟨ps.path, ps.symbol, ps.delay_ns, ps.pid_filter, regOff, 0, 0⟩],
            target_count := r.target_count + 1 })

/-- The path:symbol parsing done inline by remove_target (it does not
use parse_target_spec and does not require an absolute path). -/
def parse_remove_key (spec : Str) : Except Int (Str × Str) :=
  match strchrIdx spec ':' with
  | none => .error (-EINVAL)
  | some colon =>
    let plen := colon
    if plen = 0 ∨ plen ≥ SPEED_BUMP_MAX_PATH_LEN then .error (-ENAMETOOLONG)
    else
      let rest := spec.drop (colon + 1)
      let slen := trimTrailLen rest ['\n', '\r'] rest.length
      if slen = 0 ∨ slen ≥ SPEED_BUMP_MAX_SYMBOL_LEN then .error (-ENAMETOOLONG)
      else .ok (spec.take plen, rest.take slen)

/-- Remove the first list entry matching the key: list_del on the entry
returned by find_target. -/
def eraseFirstKey (targets : List Target) (path symbol : Str) : List Target :=
  targets.eraseP (fun t => decide (t.path = path ∧ t.symbol = symbol))

/-- remove_target: a lone star (optionally newline-terminated) frees every
target; otherwise find the key and free that entry.  Each free_target
call does list_del and one atomic decrement of the count. -/
def remove_target (r : Registry) (spec : Str) : Int × Registry :=
  if spec.head? = some '*' ∧
     ((spec.drop 1).head? = none ∨ (spec.drop 1).head? = some '\n') then
    (0, { r with targets := [],
                 target_count := r.target_count - r.targets.length })
  else
    match parse_remove_key spec with
    | .error e => (e, r)
    | .ok (path, symbol) =>
      match find_target r.targets path symbol with
      | none => (-ENOENT, r)
      | some _ =>
        (0, { r with targets := eraseFirstKey r.targets path symbol,
                     target_count := r.target_count - 1 })

/-- Replace the first entry satisfying the predicate (the entry returned
by find_target, which update_target then mutates in place). -/
def updateFirst (p : Target → Bool) (f : Target → Target) :
    List Target → List Target
  | [] => []
  | t :: rest => if p t then f t :: rest else t :: updateFirst p f rest

/-- update_target: parse, look the key up, then overwrite the delay and,
when a pid was supplied, the pid filter of the found entry. -/
def update_target (r : Registry) (spec : Str) : Int × Registry :=
  match parse_target_spec spec SPEED_BUMP_MAX_PATH_LEN SPEED_BUMP_MAX_SYMBOL_LEN
        r.default_delay with
  | .error e => (e, r)
  | .ok ps =>
    match find_target r.targets ps.path ps.symbol with
    | none => (-ENOENT, r)
    | some _ =>
      let keyed : Target → Bool := fun t =>
        decide (t.path = ps.path ∧ t.symbol = ps.symbol)
      let mut1 : Target → Target := fun t =>
        { t with delay_ns := ps.delay_ns,
                 pid_filter := if ps.pid_filter ≠ 0 then ps.pid_filter
                               else t.pid_filter }
      (0, { r with targets := updateFirst keyed mut1 r.targets })

/-! ## Hot-path handler and statistics
(src/speed_bump_uprobe.c speed_bump_uprobe_handler,
 src/speed_bump_main.c stats_show and the percpu aggregation)

HotState collects the globals touched by the probe handler and read by
the statistics endpoint.  speed_bump_total_hits and speed_bump_total_delay
are the atomic64 aggregates the handler increments; they are declared
extern in speed_bump_internal.h (which claims speed_bump_main.c defines
them) but no source file defines them.  speed_bump_hits_percpu and
speed_bump_delay_percpu are the zero-initialised per-CPU counters
defined in speed_bump_main.c; stats_show sums those.  All u64 counter
arithmetic wraps modulo 2^64. -/

structure HotState where
  enabled : Int
  total_hits : Nat
  total_delay : Nat
  hits_percpu : List Nat
  delay_percpu : List Nat
deriving DecidableEq, Repr

/-- Module-load state: enabled is 0 and every counter zero-initialised
for a machine with ncpu possible CPUs. -/
def HotState.init (ncpu : Nat) : HotState :=
  ⟨0, 0, 0, List.replicate ncpu 0, List.replicate ncpu 0⟩

/-- speed_bump_uprobe_handler.  The process-tree walk behind the PID
filter is kernel state, abstracted as the oracle inFilterTree (whether
the current task or one of its ancestors has tgid equal to the filter).
Returns the updated globals, the updated target, and whether the spin
delay was executed. -/
def speed_bump_uprobe_handler (h : HotState) (t : Target)
    (inFilterTree : Bool) : HotState × Target × Bool :=
  if h.enabled = 0 then (h, t, false)
  else if t.pid_filter ≠ 0 ∧ ¬inFilterTree then (h, t, false)
  else
    ({ h with total_hits := (h.total_hits + 1) % 2 ^ 64,
              total_delay := (h.total_delay + t.delay_ns) % 2 ^ 64 },
     { t with hit_count := (t.hit_count + 1) % 2 ^ 64,
              total_delay_ns := (t.total_delay_ns + t.delay_ns) % 2 ^ 64 },
     true)

/-- aggregate_percpu_hits: sum of the per-CPU hit counters, wrapping. -/
def aggregate_percpu_hits (h : HotState) : Nat :=
  (h.hits_percpu.foldl (fun a x => a + x) 0) % 2 ^ 64

/-- aggregate_percpu_delay: sum of the per-CPU delay counters, wrapping. -/
def aggregate_percpu_delay (h : HotState) : Nat :=
  (h.delay_percpu.foldl (fun a x => a + x) 0) % 2 ^ 64

/-- stats_show: the four values the stats file prints, in order -
enabled, target count, total hits, total delay. -/
def stats_show (h : HotState) (target_count : Int) : Int × Int × Nat × Nat :=
  (h.enabled, target_count, aggregate_percpu_hits h, aggregate_percpu_delay h)

/-! ## Operation sequences over the registry (for the registry invariant) -/

inductive RegOp where
  | addOp (spec : Str) (allocOk : Bool) (regRet : Int) (regOff : Nat)
  | removeOp (spec : Str)

def applyOp (r : Registry) : RegOp → Registry
  | .addOp s a rr off => (add_target r s a rr off).2
  | .removeOp s => (remove_target r s).2

def runOps (r : Registry) (ops : List RegOp) : Registry :=
  ops.foldl applyOp r

def keyOf (t : Target) : Str × Str := (t.path, t.symbol)

/-- The registry invariant: the count mirrors the number of live targets,
the bound holds, and live keys are pairwise distinct. -/
def RegistryInv (r : Registry) : Prop :=
  r.target_count = r.targets.length ∧
  r.targets.length ≤ SPEED_BUMP_MAX_TARGETS ∧
  (r.targets.map keyOf).Nodup

/-! ## ELF symbol resolution (src/speed_bump_uprobe.c)

File content is a list of byte values.  kernel_read is modelled as an
exact read: the callers treat any short read as failure, and a request
of zero bytes always succeeds.  kmalloc of the buffers is assumed to
succeed (kernel allocation is outside the core; every allocation-failure
branch degrades to the same skip/abort path as a short read).  loff_t
and u64 values are carried as the Nat value of their 64-bit pattern. -/

abbrev Bytes := List Nat

/-- kernel_read with an exact-length success criterion. -/
def kernelRead (file : Bytes) (pos n : Nat) : Option Bytes :=
  if n = 0 then some []
  else if pos + n ≤ file.length then some ((file.drop pos).take n)
  else none

/-- Little-endian value of w bytes at offset off of a buffer (bytes
outside the buffer read as zero; every use below stays in bounds). -/
def readLE (b : Bytes) (off w : Nat) : Nat :=
  (List.range w).foldr (fun i acc => acc * 256 + b.getD (off + i) 0) 0

def PT_LOAD : Nat := 1
def SHT_SYMTAB : Nat := 2
def SHT_DYNSYM : Nat := 11

/-- The fields of Elf64_Ehdr the resolver uses. -/
structure Ehdr where
  e_phoff : Nat
  e_shoff : Nat
  e_phnum : Nat
  e_shnum : Nat
  e_shstrndx : Nat
deriving DecidableEq, Repr

/-- Read the 64-byte ELF header, check the magic and the 64-bit class
(lines 156 to 167 of speed_bump_uprobe.c); none means return 0. -/
def readEhdr (file : Bytes) : Option Ehdr :=
  match kernelRead file 0 64 with
  | none => none
  | some hb =>
    if hb.take 4 ≠ [0x7f, 0x45, 0x4c, 0x46] then none
    else if hb.getD 4 0 ≠ 2 then none
    else some ⟨readLE hb 32 8, readLE hb 40 8, readLE hb 56 2,
               readLE hb 60 2, readLE hb 62 2⟩

/-- The fields of Elf64_Phdr the resolver uses (56-byte entries). -/
structure Phdr where
  p_type : Nat
  p_offset : Nat
  p_vaddr : Nat
  p_filesz : Nat
deriving DecidableEq, Repr

def decodePhdr (b : Bytes) (i : Nat) : Phdr :=
  ⟨readLE b (i * 56) 4, readLE b (i * 56 + 8) 8,
   readLE b (i * 56 + 16) 8, readLE b (i * 56 + 32) 8⟩

/-- The fields of Elf64_Shdr the resolver uses (64-byte entries). -/
structure Shdr where
  sh_type : Nat
  sh_offset : Nat
  sh_size : Nat
  sh_link : Nat
deriving DecidableEq, Repr

def decodeShdr (b : Bytes) (i : Nat) : Shdr :=
  ⟨readLE b (i * 64 + 4) 4, readLE b (i * 64 + 24) 8,
   readLE b (i * 64 + 32) 8, readLE b (i * 64 + 40) 4⟩

/-- The PT_LOAD scan of vaddr_to_file_offset: walk the program header
entries in order; the first load segment whose range (by p_filesz, with
u64 wrap) contains vaddr sets the file offset and breaks; file_offset
stays 0 otherwise. -/
def loadSegLoop (phb : Bytes) (vaddr : Nat) : List Nat → Nat
  | [] => 0
  | i :: rest =>
    let p := decodePhdr phb i
    if p.p_type ≠ PT_LOAD then loadSegLoop phb vaddr rest
    else if p.p_vaddr ≤ vaddr ∧ vaddr < (p.p_vaddr + p.p_filesz) % 2 ^ 64 then
      (p.p_offset + (vaddr - p.p_vaddr)) % 2 ^ 64
    else loadSegLoop phb vaddr rest

/-- vaddr_to_file_offset: 0 when there are no program headers or the
program header read is short, else the PT_LOAD scan. -/
def vaddr_to_file_offset (file : Bytes) (ehdr : Ehdr) (vaddr : Nat) : Nat :=
  if ehdr.e_phnum = 0 then 0
  else
    match kernelRead file ehdr.e_phoff (ehdr.e_phnum * 56) with
    | none => 0
    | some phb => loadSegLoop phb vaddr (List.range ehdr.e_phnum)

/-- strcmp of the NUL-terminated byte string starting at buf[off] against
a NUL-free name, reporting only equality.  An access past the end of buf
is the out-of-bounds read the C strcmp would perform on a string table
with no terminating NUL; it surfaces as an error value. -/
def cstrEq (buf : Bytes) (off : Nat) (name : Bytes) : Except Unit Bool :=
  match buf.get? off, name with
  | none, _ => .error ()
  | some c, [] => .ok (c = 0)
  | some c, n :: rest =>
    if c ≠ n then .ok false
    else if c = 0 then .ok true
    else cstrEq buf (off + 1) rest

/-- The inner symbol loop (lines 236 to 248): skip entries whose name
offset is at or past the string table size, otherwise compare the name;
the first match returns st_value. -/
def scanSyms (symtab strtab : Bytes) (strtabSize : Nat) (name : Bytes) :
    List Nat → Except Unit (Option Nat)
  | [] => .ok none
  | j :: rest =>
    let stName := readLE symtab (j * 24) 4
    if stName ≥ strtabSize then scanSyms symtab strtab strtabSize name rest
    else
      match cstrEq strtab stName name with
      | .error e => .error e
      | .ok true => .ok (some (readLE symtab (j * 24 + 8) 8))
      | .ok false => scanSyms symtab strtab strtabSize name rest

/-- The section loop (lines 194 to 254): for each symtab or dynsym
section with an in-range link, load the linked string table and the
symbol entries (skipping the section on a short read of either) and
scan; the first matching symbol ends the loop with its virtual address,
and sym_vaddr stays 0 when no section produces a match. -/
def scanSections (file shb : Bytes) (eShnum : Nat) (name : Bytes) :
    List Nat → Except Unit Nat
  | [] => .ok 0
  | i :: rest =>
    let sh := decodeShdr shb i
    if sh.sh_type ≠ SHT_SYMTAB ∧ sh.sh_type ≠ SHT_DYNSYM then
      scanSections file shb eShnum name rest
    else if sh.sh_link ≥ eShnum then scanSections file shb eShnum name rest
    else
      let link := decodeShdr shb sh.sh_link
      match kernelRead file link.sh_offset link.sh_size with
      | none => scanSections file shb eShnum name rest
      | some strtab =>
        match kernelRead file sh.sh_offset sh.sh_size with
        | none => scanSections file shb eShnum name rest
        | some symtab =>
          match scanSyms symtab strtab link.sh_size name
                (List.range (sh.sh_size / 24)) with
          | .error e => .error e
          | .ok (some v) => .ok v
          | .ok none => scanSections file shb eShnum name rest

/-- resolve_symbol_offset: header validation, section header and
section-header string table reads (the string table content is parsed
but unused; a short read of it still aborts with 0), the section scan,
and the conversion of a non-zero symbol address to a file offset.
The error value records that the C code would have read out of bounds
(undefined behaviour); every defined failure is the ok 0 result. -/
def resolve_symbol_offset (file : Bytes) (symbolName : Bytes) :
    Except Unit Nat :=
  match readEhdr file with
  | none => .ok 0
  | some ehdr =>
    match kernelRead file ehdr.e_shoff (ehdr.e_shnum * 64) with
    | none => .ok 0
    | some shb =>
      if ehdr.e_shstrndx ≥ ehdr.e_shnum then .ok 0
      else
        let shstr := decodeShdr shb ehdr.e_shstrndx
        match kernelRead file shstr.sh_offset shstr.sh_size with
        | none => .ok 0
        | some _ =>
          match scanSections file shb ehdr.e_shnum symbolName
                (List.range ehdr.e_shnum) with
          | .error e => .error e
          | .ok symVaddr =>
            .ok (if symVaddr ≠ 0 then vaddr_to_file_offset file ehdr symVaddr
                 else 0)

/-- speed_bump_register_uprobe on a freshly allocated target (registered
is false).  Path lookup, inode grab, file open and the uprobe attach are
kernel services, passed as oracles; the resolver runs on the opened file
content.  The outer error propagates an out-of-bounds read inside the
resolver; the inner value is the errno result of the C function, with
the resolved offset on success. -/
def speed_bump_register_uprobe (kernPathRet : Except Int Unit)
    (igrabOk : Bool) (filpRet : Except Int Bytes) (symbolName : Bytes)
    (attachRet : Except Int Unit) : Except Unit (Except Int Nat) :=
  match kernPathRet with
  | .error e => .ok (.error e)
  | .ok _ =>
    if ¬igrabOk then .ok (.error (-ENOENT))
    else
      match filpRet with
      | .error e => .ok (.error e)
      | .ok content =>
        match resolve_symbol_offset content symbolName with
        | .error f => .error f
        | .ok off =>
          if off = 0 then .ok (.error (-ENOENT))
          else
            match attachRet with
            | .error e => .ok (.error e)
            | .ok _ => .ok (.ok off)

/-! ## Concrete ELF images used as witnesses and counterexamples -/

/-- w bytes, little endian, of the value v. -/
def le (w v : Nat) : Bytes :=
  (List.range w).map (fun i => v / 256 ^ i % 256)

/-- A 64-byte ELF64 header with the given table locations. -/
def elfHeaderBytes (phoff shoff phnum shnum shstrndx : Nat) : Bytes :=
  [0x7f, 0x45, 0x4c, 0x46, 2, 1, 1, 0, 0, 0, 0, 0, 0, 0, 0, 0]
  ++ le 2 2 ++ le 2 62 ++ le 4 1 ++ le 8 0
  ++ le 8 phoff ++ le 8 shoff ++ le 4 0 ++ le 2 64 ++ le 2 56
  ++ le 2 phnum ++ le 2 64 ++ le 2 shnum ++ le 2 shstrndx

/-- A 64-byte section header entry. -/
def shdrBytes (name stype offset size link entsize : Nat) : Bytes :=
  le 4 name ++ le 4 stype ++ le 8 0 ++ le 8 0 ++ le 8 offset ++ le 8 size
  ++ le 4 link ++ le 4 0 ++ le 8 0 ++ le 8 entsize

/-- A 56-byte program header entry (paddr mirrors vaddr, memsz mirrors
filesz). -/
def phdrBytes (ptype offset vaddr filesz : Nat) : Bytes :=
  le 4 ptype ++ le 4 5 ++ le 8 offset ++ le 8 vaddr ++ le 8 vaddr
  ++ le 8 filesz ++ le 8 filesz ++ le 8 4096

/-- A 24-byte symbol table entry bound to section 1. -/
def symBytes (name value : Nat) : Bytes :=
  le 4 name ++ [0, 0] ++ le 2 1 ++ le 8 value ++ le 8 0

/-- A well-formed image: one PT_LOAD segment (file offset 512, vaddr
4096, size 256), a null section, a symtab section with one entry, and
its string table holding the single name f; the symbol f sits at
virtual address 4112, hence at file offset 512 + 16 = 528. -/
def goodElf : Bytes :=
  elfHeaderBytes 64 120 1 3 2
  ++ phdrBytes 1 512 4096 256
  ++ shdrBytes 0 0 0 0 0 0
  ++ shdrBytes 0 2 315 24 2 24
  ++ shdrBytes 0 3 312 3 0 0
  ++ [0, 102, 0]
  ++ symBytes 1 4112

/-- goodElf with the symbol value zeroed: f exists in the symbol table
but records virtual address 0. -/
def zeroValElf : Bytes :=
  elfHeaderBytes 64 120 1 3 2
  ++ phdrBytes 1 512 4096 256
  ++ shdrBytes 0 0 0 0 0 0
  ++ shdrBytes 0 2 315 24 2 24
  ++ shdrBytes 0 3 312 3 0 0
  ++ [0, 102, 0]
  ++ symBytes 1 0

/-- An image whose string table is the single byte a with no
terminating NUL: the name comparison for the one symbol entry (name
offset 0, inside the table) runs past the end of the table. -/
def oobElf : Bytes :=
  elfHeaderBytes 0 64 0 3 2
  ++ shdrBytes 0 0 0 0 0 0
  ++ shdrBytes 0 2 257 24 2 24
  ++ shdrBytes 0 3 256 1 0 0
  ++ [97]
  ++ symBytes 0 0

/-! ## Helper lemmas -/

/-- The matcher on non-null arguments, as one boolean expression. -/
theorem matchSome_eq (pat path sym : Str) :
    speed_bump_match_target (some pat) (some path) (some sym) =
      (match strchrIdx pat ':' with
       | none => false
       | some ci =>
         (decide (sym = pat.drop (ci + 1))) &&
         (if 0 < ci ∧ pat[ci - 1]? = some '*' then
            (pat.take (ci - 1)).isPrefixOf path
          else decide (path = pat.take ci))) := by
  unfold speed_bump_match_target
  cases hc : strchrIdx pat ':' with
  | none => simp [hc]
  | some ci =>
    by_cases hs : sym = pat.drop (ci + 1)
    · by_cases hw : 0 < ci ∧ pat[ci - 1]? = some '*'
      · simp [hc, hs, hw, ← List.isPrefixOf_iff_prefix]
      · simp [hc, hs, hw]
    · simp [hc, hs]

/-- strchr finds the separator right after a separator-free head. -/
theorem strchrIdx_append (pre post : Str) (c : Char) (h : c ∉ pre) :
    strchrIdx (pre ++ c :: post) c = some pre.length := by
  induction pre with
  | nil => simp [strchrIdx]
  | cons x xs ih =>
    have hx : x ≠ c := fun hxc => h (hxc ▸ List.mem_cons_self x xs)
    have ih2 := ih (fun hm => h (List.mem_cons_of_mem x hm))
    simp [strchrIdx, hx, ih2]

/-- strchr misses a character that does not occur. -/
theorem strchrIdx_eq_none (s : Str) (c : Char) (h : c ∉ s) :
    strchrIdx s c = none := by
  induction s with
  | nil => rfl
  | cons x rest ih =>
    have hx : x ≠ c := fun hxc => h (hxc ▸ List.mem_cons_self x rest)
    have h2 : c ∉ rest := fun hm => h (List.mem_cons_of_mem x hm)
    simp [strchrIdx, hx, ih h2]

/-- A strstr hit leaves room for the needle inside the haystack. -/
theorem strstrIdx_add_le (hay needle : Str) (i : Nat)
    (h : strstrIdx hay needle = some i) :
    i + needle.length ≤ hay.length := by
  induction hay generalizing i with
  | nil =>
    unfold strstrIdx at h
    split at h
    · rename_i hne
      injection h with h1
      rw [← h1, hne]
      simp
    · cases h
  | cons c rest ih =>
    unfold strstrIdx at h
    split at h
    · rename_i hpre
      injection h with h1
      have hpp : needle <+: (c :: rest) := List.isPrefixOf_iff_prefix.mp hpre
      have hlen := List.IsPrefix.length_le hpp
      rw [← h1]
      simpa using hlen
    · split at h
      · rename_i j hj
        injection h with h1
        have := ih j hj
        rw [← h1]
        simp only [List.length_cons]
        omega
      · cases h

/-- The head of an append with a nonempty head list. -/
theorem head?_append_left (l l2 : List Char) (h : l ≠ []) :
    (l ++ l2).head? = l.head? := by
  cases l with
  | nil => exact absurd rfl h
  | cons x xs => rfl

/-- Taking up to the separator of an append recovers the head list. -/
theorem take_append_head (pre post : Str) (c : Char) :
    (pre ++ c :: post).take pre.length = pre := by
  have h : pre ++ c :: post = pre ++ ([c] ++ post) := rfl
  rw [h, List.take_left]

/-- Dropping past the separator of an append recovers the tail list. -/
theorem drop_append_head (pre post : Str) (c : Char) :
    (pre ++ c :: post).drop (pre.length + 1) = post := by
  have h : pre ++ c :: post = (pre ++ [c]) ++ post := by simp
  have hlen : (pre ++ [c]).length = pre.length + 1 := by simp
  rw [h, ← hlen, List.drop_left]

/-! Every error the parsing layer can produce is a negative errno. -/

theorem kstrtoullBody_error_neg (s : Str) (e : Int)
    (h : kstrtoullBody s = .error e) : e < 0 := by
  unfold kstrtoullBody at h
  dsimp only at h
  split at h
  · injection h with h1; rw [← h1]; decide
  · split at h
    · injection h with h1; rw [← h1]; decide
    · split at h
      · cases h
      · injection h with h1; rw [← h1]; decide

theorem kstrtou64_error_neg (s : Str) (e : Int)
    (h : kstrtou64 s = .error e) : e < 0 := by
  unfold kstrtou64 at h
  split at h <;> exact kstrtoullBody_error_neg _ _ h

theorem kstrtoll_error_neg (s : Str) (e : Int)
    (h : kstrtoll s = .error e) : e < 0 := by
  unfold kstrtoll at h
  split at h
  · split at h
    · rename_i hb
      injection h with h1
      exact h1 ▸ kstrtoullBody_error_neg _ _ hb
    · split at h
      · injection h with h1; rw [← h1]; decide
      · cases h
  · split at h
    · rename_i hb
      injection h with h1
      exact h1 ▸ kstrtou64_error_neg _ _ hb
    · split at h
      · injection h with h1; rw [← h1]; decide
      · cases h

theorem kstrtoint_error_neg (s : Str) (e : Int)
    (h : kstrtoint s = .error e) : e < 0 := by
  unfold kstrtoint at h
  split at h
  · rename_i hb
    injection h with h1
    exact h1 ▸ kstrtoll_error_neg _ _ hb
  · split at h
    · injection h with h1; rw [← h1]; decide
    · cases h

theorem parsePidField_error_neg (rem : Str) (pidIdx : Option Nat) (e : Int)
    (h : parsePidField rem pidIdx = .error e) : e < 0 := by
  unfold parsePidField at h
  split at h
  · cases h
  · split at h
    · rename_i hb
      injection h with h1
      exact h1 ▸ kstrtoint_error_neg _ _ hb
    · split at h
      · injection h with h1; rw [← h1]; decide
      · cases h

theorem parseDelayField_error_neg (rem : Str) (pidIdx : Option Nat)
    (d : Nat) (e : Int)
    (h : parseDelayField rem pidIdx d = .error e) : e < 0 := by
  unfold parseDelayField at h
  split at h
  · split at h
    · dsimp only at h
      split at h
      · exact kstrtou64_error_neg _ _ h
      · cases h
    · cases h
  · exact kstrtou64_error_neg _ _ h

theorem parseOptionalFields_error_neg (rem : Str) (d : Nat) (e : Int)
    (h : parseOptionalFields rem d = .error e) : e < 0 := by
  unfold parseOptionalFields at h
  split at h
  · rename_i hb
    injection h with h1
    exact h1 ▸ parsePidField_error_neg _ _ _ hb
  · split at h
    · rename_i hb
      injection h with h1
      exact h1 ▸ parseDelayField_error_neg _ _ _ _ hb
    · cases h

theorem parse_target_spec_error_neg (line : Str) (a b d : Nat) (e : Int)
    (h : parse_target_spec line a b d = .error e) : e < 0 := by
  unfold parse_target_spec at h
  split at h
  · injection h with h1; rw [← h1]; decide
  · dsimp only at h
    split at h
    · injection h with h1; rw [← h1]; decide
    · split at h
      · injection h with h1; rw [← h1]; decide
      · split at h
        · split at h
          · injection h with h1; rw [← h1]; decide
          · split at h
            · rename_i hb
              injection h with h1
              exact h1 ▸ parseOptionalFields_error_neg _ _ _ hb
            · split at h
              · injection h with h1; rw [← h1]; decide
              · split at h
                · injection h with h1; rw [← h1]; decide
                · cases h
        · split at h
          · injection h with h1; rw [← h1]; decide
          · split at h
            · injection h with h1; rw [← h1]; decide
            · cases h

/-- find_target misses exactly when the key is not among the live keys. -/
theorem find_target_eq_none_iff (targets : List Target) (p s : Str) :
    find_target targets p s = none ↔ (p, s) ∉ targets.map keyOf := by
  constructor
  · intro h hk
    obtain ⟨t, ht, hkey⟩ := List.mem_map.mp hk
    have h2 := List.find?_eq_none.mp h t ht
    simp only [decide_eq_true_eq] at h2
    have h3 : t.path = p := congrArg Prod.fst hkey
    have h4 : t.symbol = s := congrArg Prod.snd hkey
    exact h2 ⟨h3, h4⟩
  · intro h
    apply List.find?_eq_none.mpr
    intro t ht
    simp only [decide_eq_true_eq]
    rintro ⟨h1, h2⟩
    exact h (List.mem_map.mpr ⟨t, ht, by simp [keyOf, h1, h2]⟩)

/-- What a find_target hit says about the found entry. -/
theorem find_target_some (targets : List Target) (p s : Str) (t : Target)
    (h : find_target targets p s = some t) :
    t ∈ targets ∧ t.path = p ∧ t.symbol = s := by
  refine ⟨List.mem_of_find?_eq_some h, ?_⟩
  have h2 := List.find?_some h
  simpa using h2

/-- Case analysis of add_target: either the state is unchanged, or every
guard passed, registration succeeded, and exactly the parsed target was
appended with the count incremented. -/
theorem add_target_state (r : Registry) (spec : Str) (allocOk : Bool)
    (regRet : Int) (regOff : Nat) :
    (add_target r spec allocOk regRet regOff).2 = r ∨
    ((add_target r spec allocOk regRet regOff).1 = 0 ∧ regRet = 0 ∧
      ∃ ps, parse_target_spec spec SPEED_BUMP_MAX_PATH_LEN
              SPEED_BUMP_MAX_SYMBOL_LEN r.default_delay = .ok ps ∧
        find_target r.targets ps.path ps.symbol = none ∧
        r.target_count < (SPEED_BUMP_MAX_TARGETS : Int) ∧
        (add_target r spec allocOk regRet regOff).2 =
          { r with
            targets := r.targets ++
              [⟨ps.path, ps.symbol, ps.delay_ns, ps.pid_filter, regOff, 0, 0⟩],
            target_count := r.target_count + 1 }) := by
  unfold add_target
  split
  · left; rfl
  · rename_i ps hp
    split
    · left; rfl
    · rename_i hfind
      split
      · left; rfl
      · rename_i hcap
        split
        · left; rfl
        · split
          · left; rfl
          · rename_i hreg
            right
            refine ⟨rfl, by omega, ps, hp, ?_, by omega, rfl⟩
            exact Option.not_isSome_iff_eq_none.mp hfind

/-- Case analysis of remove_target: unchanged, remove-all, or one keyed
entry erased with the count decremented. -/
theorem remove_target_state (r : Registry) (spec : Str) :
    (remove_target r spec).2 = r ∨
    (remove_target r spec).2 =
      { r with targets := [],
               target_count := r.target_count - r.targets.length } ∨
    (∃ p s t, parse_remove_key spec = .ok (p, s) ∧
       find_target r.targets p s = some t ∧
       (remove_target r spec).2 =
         { r with targets := eraseFirstKey r.targets p s,
                  target_count := r.target_count - 1 }) := by
  unfold remove_target
  split
  · right; left; rfl
  · split
    · left; rfl
    · rename_i p s hp
      split
      · left; rfl
      · rename_i t ht
        right; right
        exact ⟨p, s, t, hp, ht, rfl⟩

/-- One control operation preserves the registry invariant. -/
theorem applyOp_preserves_inv (r : Registry) (op : RegOp)
    (h : RegistryInv r) : RegistryInv (applyOp r op) := by
  obtain ⟨hc, hl, hn⟩ := h
  cases op with
  | addOp spec allocOk regRet regOff =>
    show RegistryInv (add_target r spec allocOk regRet regOff).2
    rcases add_target_state r spec allocOk regRet regOff with
      heq | ⟨-, -, ps, hp, hfind, hcap, heq⟩
    · rw [heq]; exact ⟨hc, hl, hn⟩
    · rw [heq]
      refine ⟨?_, ?_, ?_⟩
      · dsimp only
        simp only [List.length_append, List.length_singleton]
        omega
      · dsimp only
        simp only [List.length_append, List.length_singleton]
        have hlt : (r.targets.length : Int) < 64 := by
          rw [← hc]; exact hcap
        simp only [SPEED_BUMP_MAX_TARGETS]
        omega
      · dsimp only
        rw [List.map_append, List.nodup_append]
        refine ⟨hn, List.nodup_singleton _, ?_⟩
        intro k hk hk2
        simp only [List.map_singleton, List.mem_singleton] at hk2
        rw [find_target_eq_none_iff] at hfind
        have hknew : keyOf ⟨ps.path, ps.symbol, ps.delay_ns, ps.pid_filter,
            regOff, 0, 0⟩ = (ps.path, ps.symbol) := rfl
        rw [hknew] at hk2
        exact hfind (hk2 ▸ hk)
  | removeOp spec =>
    show RegistryInv (remove_target r spec).2
    rcases remove_target_state r spec with heq | heq | ⟨p, s, t, hp, hfind, heq⟩
    · rw [heq]; exact ⟨hc, hl, hn⟩
    · rw [heq]
      refine ⟨?_, ?_, ?_⟩
      · dsimp only
        simp only [List.length_nil]
        omega
      · dsimp only
        simp [SPEED_BUMP_MAX_TARGETS]
      · exact List.nodup_nil
    · rw [heq]
      obtain ⟨hmem, hkey⟩ := find_target_some r.targets p s t hfind
      have hlen : (eraseFirstKey r.targets p s).length = r.targets.length - 1 :=
        List.length_eraseP_of_mem hmem (by simp [hkey.1, hkey.2])
      have hpos : 1 ≤ r.targets.length := List.length_pos.mpr
        (List.ne_nil_of_mem hmem)
      refine ⟨?_, ?_, ?_⟩
      · dsimp only
        rw [hlen, hc]
        omega
      · dsimp only
        rw [hlen]
        omega
      · exact List.Nodup.sublist
          (List.Sublist.map keyOf (List.eraseP_sublist r.targets)) hn

/-- Any operation sequence from an invariant state keeps the invariant. -/
theorem runOps_preserves_inv (ops : List RegOp) (r : Registry)
    (h : RegistryInv r) : RegistryInv (runOps r ops) := by
  induction ops generalizing r with
  | nil => exact h
  | cons op rest ih => exact ih _ (applyOp_preserves_inv r op h)

/-- The freshly initialised registry satisfies the invariant. -/
theorem initWith_inv (d : Nat) : RegistryInv (Registry.initWith d) := by
  refine ⟨rfl, by simp [Registry.initWith, SPEED_BUMP_MAX_TARGETS], ?_⟩
  exact List.nodup_nil

/-- Trailing-whitespace trim, stated from the claim wording. -/
def trimRight (ws : List Char) (s : Str) : Str :=
  (s.reverse.dropWhile (fun c => decide (c ∈ ws))).reverse

/-- The index-stepping trim loop computes the trailing trim of the
prefix it starts from, and never grows the index. -/
theorem take_trimTrailLen (s : Str) (ws : List Char) :
    ∀ n, n ≤ s.length →
      s.take (trimTrailLen s ws n) = trimRight ws (s.take n) ∧
      trimTrailLen s ws n ≤ n := by
  intro n
  induction n with
  | zero =>
    intro _
    refine ⟨?_, Nat.le_refl 0⟩
    show s.take 0 = trimRight ws (s.take 0)
    simp [trimRight]
  | succ m ih =>
    intro hn
    have hms : m < s.length := hn
    have hc : s[m]? = some s[m] := List.getElem?_eq_getElem hms
    have htk : s.take (m + 1) = s.take m ++ [s[m]] := by
      rw [List.take_succ, hc]
      rfl
    unfold trimTrailLen
    rw [hc]
    by_cases hcw : s[m] ∈ ws
    · have hb : (some s[m]).any (fun c => decide (c ∈ ws)) = true := by
        simp [hcw]
      rw [hb, if_pos rfl]
      obtain ⟨ih1, ih2⟩ := ih (Nat.le_of_lt hms)
      refine ⟨?_, Nat.le_trans ih2 (Nat.le_succ m)⟩
      rw [ih1, htk]
      unfold trimRight
      rw [List.reverse_append]
      simp only [List.reverse_cons, List.reverse_nil, List.nil_append,
        List.singleton_append, List.dropWhile_cons]
      rw [if_pos (by simp [hcw])]
    · have hb : (some s[m]).any (fun c => decide (c ∈ ws)) = false := by
        simp [hcw]
      rw [hb]
      simp only [Bool.false_eq_true, if_false]
      refine ⟨?_, Nat.le_refl _⟩
      rw [htk]
      unfold trimRight
      rw [List.reverse_append]
      simp only [List.reverse_cons, List.reverse_nil, List.nil_append,
        List.singleton_append, List.dropWhile_cons]
      rw [if_neg (by simp [hcw])]
      simp

/-- The trim loop moves nothing when no character of the string is in
the trim set. -/
theorem trimTrailLen_no_trim (s : Str) (ws : List Char) :
    ∀ n, n ≤ s.length → (∀ c ∈ s, c ∉ ws) → trimTrailLen s ws n = n := by
  intro n
  induction n with
  | zero => intro _ _; rfl
  | succ m ih =>
    intro hn h
    have hms : m < s.length := hn
    have hc : s[m]? = some s[m] := List.getElem?_eq_getElem hms
    have hmem : s[m] ∈ s := List.getElem_mem hms
    unfold trimTrailLen
    rw [hc]
    have hb : (some s[m]).any (fun c => decide (c ∈ ws)) = false := by
      simp [h s[m] hmem]
    rw [hb]
    simp

/-- Stated from the claim wording, amended where the counterexample
forces it: the remainder after the symbol is scanned for the pid token;
the text before the token, trimmed of trailing whitespace, is parsed as
the decimal delay when it is nonempty and shorter than the 32-byte
parse buffer, and the default delay is silently used otherwise (the
amendment covers the 32-or-longer case); with no pid token the whole
remainder is the delay; a pid, when present, must be a non-negative
int. -/
def specOptionalFields (tail : Str) (default_delay : Nat) :
    Except Int (Nat × Int) :=
  match strstrIdx tail ("pid=".toList) with
  | none =>
    match kstrtou64 tail with
    | .error e => .error e
    | .ok dv => .ok (dv, 0)
  | some pi =>
    match kstrtoint (tail.drop (pi + 4)) with
    | .error e => .error e
    | .ok pv =>
      if pv < 0 then .error (-EINVAL)
      else
        let dfield := trimRight [' ', '\t'] (tail.take pi)
        if dfield = [] ∨ 32 ≤ dfield.length then .ok (default_delay, pv)
        else
          match kstrtou64 dfield with
          | .error e => .error e
          | .ok dv => .ok (dv, pv)

/-- The optional-fields block of the C parser computes exactly the
spec-stated (amended) delay and pid values. -/
theorem parseOptionalFields_eq_spec (tail : Str) (d : Nat) :
    parseOptionalFields tail d = specOptionalFields tail d := by
  unfold parseOptionalFields specOptionalFields parsePidField parseDelayField
  cases hs : strstrIdx tail ("pid=".toList) with
  | none =>
    cases hk : kstrtou64 tail <;> simp [hk]
  | some pi =>
    cases hk : kstrtoint (tail.drop (pi + 4)) with
    | error e => simp [hk]
    | ok pv =>
      simp only [hk]
      by_cases hpv : pv < 0
      · simp [hpv]
      · simp only [hpv, if_false]
        have hpil : pi ≤ tail.length := by
          have hb := strstrIdx_add_le tail _ pi hs
          omega
        obtain ⟨htr, hle⟩ := take_trimTrailLen tail [' ', '\t'] pi hpil
        have hdfl : (trimRight [' ', '\t'] (tail.take pi)).length =
            trimTrailLen tail [' ', '\t'] pi := by
          rw [← htr, List.length_take]
          omega
        by_cases hpi : pi > 0
        · rw [if_pos hpi]
          by_cases hrange : 0 < trimTrailLen tail [' ', '\t'] pi ∧
              trimTrailLen tail [' ', '\t'] pi < 32
          · rw [if_pos hrange]
            have hne : ¬(trimRight [' ', '\t'] (tail.take pi) = [] ∨
                32 ≤ (trimRight [' ', '\t'] (tail.take pi)).length) := by
              push_neg
              refine ⟨?_, ?_⟩
              · intro hnil
                rw [hnil] at hdfl
                simp at hdfl
                omega
              · rw [hdfl]
                omega
            rw [if_neg hne, htr]
          · rw [if_neg hrange]
            have hor : trimRight [' ', '\t'] (tail.take pi) = [] ∨
                32 ≤ (trimRight [' ', '\t'] (tail.take pi)).length := by
              push_neg at hrange
              by_cases hz : trimTrailLen tail [' ', '\t'] pi = 0
              · left
                have hlz : (trimRight [' ', '\t'] (tail.take pi)).length = 0 := by
                  rw [hdfl, hz]
                exact List.length_eq_zero.mp hlz
              · right
                rw [hdfl]
                exact hrange (by omega)
            rw [if_pos hor]
        · rw [if_neg hpi]
          have hp0 : pi = 0 := by omega
          have hempty : trimRight [' ', '\t'] (tail.take pi) = [] := by
            rw [hp0]
            simp [trimRight]
          rw [if_pos (Or.inl hempty)]

/-! ## Claim theorems -/

/-- Claim C4: whenever the global enabled flag is 0, a probe trigger on
any attached target returns immediately: the globals and the target
counters are unchanged and no spin delay is executed. -/
theorem C4_disabled_handler_is_noop (h : HotState) (t : Target)
    (inFilterTree : Bool) (hz : h.enabled = 0) :
    speed_bump_uprobe_handler h t inFilterTree = (h, t, false) := by
  simp [speed_bump_uprobe_handler, hz]

/-- Witness for C4 at a concrete disabled state and target. -/
theorem C4_disabled_handler_is_noop_witness :
    speed_bump_uprobe_handler (HotState.init 4)
        ⟨"/usr/bin/app".toList, "main".toList, 100, 0, 528, 0, 0⟩ true =
      (HotState.init 4,
       ⟨"/usr/bin/app".toList, "main".toList, 100, 0, 528, 0, 0⟩, false) :=
  C4_disabled_handler_is_noop (HotState.init 4)
    ⟨"/usr/bin/app".toList, "main".toList, 100, 0, 528, 0, 0⟩ true (by decide)

/-- Claim C1, failing-input evaluation: one executed hit (system enabled,
no pid filter) increments the per-target counters and the aggregate
atomics, but the stats endpoint reports total_hits and total_delay_ns 0,
because stats_show sums the never-incremented per-CPU counters instead
of the aggregates the hot path updates. -/
theorem C1_hot_path_increments_not_reported_by_stats :
    (speed_bump_uprobe_handler
        { HotState.init 4 with enabled := 1 }
        ⟨"/usr/bin/app".toList, "main".toList, 100, 0, 528, 0, 0⟩
        true).2.1.hit_count = 1 ∧
    (speed_bump_uprobe_handler
        { HotState.init 4 with enabled := 1 }
        ⟨"/usr/bin/app".toList, "main".toList, 100, 0, 528, 0, 0⟩
        true).2.1.total_delay_ns = 100 ∧
    (speed_bump_uprobe_handler
        { HotState.init 4 with enabled := 1 }
        ⟨"/usr/bin/app".toList, "main".toList, 100, 0, 528, 0, 0⟩
        true).1.total_hits = 1 ∧
    (speed_bump_uprobe_handler
        { HotState.init 4 with enabled := 1 }
        ⟨"/usr/bin/app".toList, "main".toList, 100, 0, 528, 0, 0⟩
        true).1.total_delay = 100 ∧
    (stats_show (speed_bump_uprobe_handler
        { HotState.init 4 with enabled := 1 }
        ⟨"/usr/bin/app".toList, "main".toList, 100, 0, 528, 0, 0⟩
        true).1 1).2.2.1 = 0 ∧
    (stats_show (speed_bump_uprobe_handler
        { HotState.init 4 with enabled := 1 }
        ⟨"/usr/bin/app".toList, "main".toList, 100, 0, 528, 0, 0⟩
        true).1 1).2.2.2 = 0 := by
  decide

/-- Claim C2: an add that fails for any reason (parse error, duplicate,
capacity, allocation failure, registration failure) leaves the registry
unchanged, and a target is appended - becomes visible - exactly when
every guard passed and the combined resolve-and-attach step reported
success. -/
theorem C2_add_failure_leaves_registry_unchanged (r : Registry) (spec : Str)
    (allocOk : Bool) (regRet : Int) (regOff : Nat) :
    ((add_target r spec allocOk regRet regOff).1 ≠ 0 →
      (add_target r spec allocOk regRet regOff).2 = r) ∧
    ((add_target r spec allocOk regRet regOff).1 = 0 →
      regRet = 0 ∧
      ∃ ps, parse_target_spec spec SPEED_BUMP_MAX_PATH_LEN
              SPEED_BUMP_MAX_SYMBOL_LEN r.default_delay = .ok ps ∧
        find_target r.targets ps.path ps.symbol = none ∧
        (add_target r spec allocOk regRet regOff).2.targets =
          r.targets ++
            [⟨ps.path, ps.symbol, ps.delay_ns, ps.pid_filter, regOff, 0, 0⟩]) := by
  unfold add_target
  split
  · rename_i e hp
    refine ⟨fun _ => rfl, fun h0 => ?_⟩
    have hneg := parse_target_spec_error_neg spec _ _ _ e hp
    exact absurd (h0 : e = 0) (by omega)
  · rename_i ps hp
    split
    · rename_i hfind
      refine ⟨fun _ => rfl, fun h0 => ?_⟩
      have he : -EEXIST = (0 : Int) := h0
      exact absurd he (by decide)
    · rename_i hfind
      split
      · refine ⟨fun _ => rfl, fun h0 => ?_⟩
        have he : -ENOSPC = (0 : Int) := h0
        exact absurd he (by decide)
      · split
        · refine ⟨fun _ => rfl, fun h0 => ?_⟩
          have he : -ENOMEM = (0 : Int) := h0
          exact absurd he (by decide)
        · split
          · rename_i hreg
            refine ⟨fun _ => rfl, fun h0 => ?_⟩
            exact absurd (h0 : regRet = 0) hreg
          · rename_i hreg
            refine ⟨fun hne => absurd rfl hne, fun _ => ?_⟩
            exact ⟨not_ne_iff.mp hreg, ps, hp,
              Option.not_isSome_iff_eq_none.mp hfind, rfl⟩

/-- Witness for C2: a registration failure leaves the fresh registry
unchanged, and a fully successful add appends exactly the parsed
target. -/
theorem C2_add_failure_leaves_registry_unchanged_witness :
    ((add_target (Registry.initWith 777) "/a:b".toList true (-2) 0).2 =
      Registry.initWith 777) ∧
    ((0 : Int) = 0 ∧
      ∃ ps, parse_target_spec "/a:b".toList SPEED_BUMP_MAX_PATH_LEN
              SPEED_BUMP_MAX_SYMBOL_LEN
              (Registry.initWith 777).default_delay = .ok ps ∧
        find_target (Registry.initWith 777).targets ps.path ps.symbol = none ∧
        (add_target (Registry.initWith 777) "/a:b".toList true 0 9).2.targets =
          (Registry.initWith 777).targets ++
            [⟨ps.path, ps.symbol, ps.delay_ns, ps.pid_filter, 9, 0, 0⟩]) :=
  ⟨(C2_add_failure_leaves_registry_unchanged
      (Registry.initWith 777) "/a:b".toList true (-2) 0).1 (by decide),
   (C2_add_failure_leaves_registry_unchanged
      (Registry.initWith 777) "/a:b".toList true 0 9).2 (by decide)⟩

/-- Claim C3: from an empty registry, any sequence of add and remove
operations keeps the invariant - the count equals the number of live
targets, never exceeds 64, and live keys are pairwise distinct; an add
at full capacity with a fresh key returns ENOSPC, and an add with a
live key returns EEXIST, in both cases for every possible outcome of
allocation and of the resolve-and-attach step (they are never
consulted). -/
theorem C3_registry_capacity_and_uniqueness :
    (∀ d ops, RegistryInv (runOps (Registry.initWith d) ops)) ∧
    (∀ r spec allocOk regRet regOff ps,
       parse_target_spec spec SPEED_BUMP_MAX_PATH_LEN
           SPEED_BUMP_MAX_SYMBOL_LEN r.default_delay = .ok ps →
       find_target r.targets ps.path ps.symbol = none →
       r.target_count = (SPEED_BUMP_MAX_TARGETS : Int) →
       (add_target r spec allocOk regRet regOff).1 = -ENOSPC) ∧
    (∀ r spec allocOk regRet regOff ps,
       parse_target_spec spec SPEED_BUMP_MAX_PATH_LEN
           SPEED_BUMP_MAX_SYMBOL_LEN r.default_delay = .ok ps →
       (find_target r.targets ps.path ps.symbol).isSome →
       (add_target r spec allocOk regRet regOff).1 = -EEXIST) := by
  refine ⟨?_, ?_, ?_⟩
  · intro d ops
    exact runOps_preserves_inv ops _ (initWith_inv d)
  · intro r spec allocOk regRet regOff ps hp hfind hcount
    simp [add_target, hp, hfind, hcount, SPEED_BUMP_MAX_TARGETS]
  · intro r spec allocOk regRet regOff ps hp hfind
    simp [add_target, hp, hfind]

/-- Witness for C3: a concrete add and remove run from the empty
registry, a full registry rejecting a fresh add, and a duplicate add. -/
theorem C3_registry_capacity_and_uniqueness_witness :
    RegistryInv (runOps (Registry.initWith 777)
      [.addOp "/a:b 5000".toList true 0 9, .removeOp "/a:b".toList]) ∧
    (add_target ⟨[], 64, 777⟩ "/a:b".toList true 0 9).1 = -ENOSPC ∧
    (add_target ⟨[⟨"/a".toList, "b".toList, 5, 0, 9, 0, 0⟩], 1, 777⟩
        "/a:b".toList true 0 9).1 = -EEXIST :=
  ⟨C3_registry_capacity_and_uniqueness.1 777
      [.addOp "/a:b 5000".toList true 0 9, .removeOp "/a:b".toList],
   C3_registry_capacity_and_uniqueness.2.1 ⟨[], 64, 777⟩ "/a:b".toList
      true 0 9 ⟨"/a".toList, "b".toList, 777, 0⟩ (by decide) (by decide)
      (by decide),
   C3_registry_capacity_and_uniqueness.2.2
      ⟨[⟨"/a".toList, "b".toList, 5, 0, 9, 0, 0⟩], 1, 777⟩ "/a:b".toList
      true 0 9 ⟨"/a".toList, "b".toList, 777, 0⟩ (by decide) (by decide)⟩

/-- Claim C7, counterexample: a 32-character delay field before the pid
token denotes a value far above the configured maximum, yet the command
does not fail with a range error - it succeeds and silently stores the
default delay (777 here). -/
theorem C7_long_delay_field_uses_default_counterexample :
    parse_target_spec
        "/a:b 11111111111111111111111111111111 pid=2".toList
        SPEED_BUMP_MAX_PATH_LEN SPEED_BUMP_MAX_SYMBOL_LEN 777 =
      .ok ⟨"/a".toList, "b".toList, 777, 2⟩ := by
  decide

/-- Claim C7, amended: on a well-formed line the remainder after the
symbol is scanned for the pid token and everything before it, trimmed
of trailing whitespace, is parsed as the decimal delay - except that an
empty or 32-or-more-character field silently falls back to the default
delay; with no pid token the whole remainder is the delay; with no
optional field at all the default delay and no PID filter are stored;
and a parsed delay above the maximum is a range error.  The concrete
scenario of the claim - delay 5000 with pid 42 - is included. -/
theorem C7_optional_field_parsing_amended :
    (∀ path sym tail d,
       path.head? = some '/' → ':' ∉ path →
       path.length < SPEED_BUMP_MAX_PATH_LEN →
       ' ' ∉ sym → sym ≠ [] → sym.length < SPEED_BUMP_MAX_SYMBOL_LEN →
       parse_target_spec (path ++ ':' :: (sym ++ ' ' :: tail))
           SPEED_BUMP_MAX_PATH_LEN SPEED_BUMP_MAX_SYMBOL_LEN d =
         (match specOptionalFields tail d with
          | .error e => .error e
          | .ok (delay, pid) =>
            if delay > SPEED_BUMP_MAX_DELAY_NS then .error (-ERANGE)
            else if sym.head? ≠ some '_' ∧
                    ¬((sym.head?).any Char.isAlpha) then .error (-EINVAL)
            else .ok ⟨path, sym, delay, pid⟩)) ∧
    (∀ path sym d,
       path.head? = some '/' → ':' ∉ path →
       path.length < SPEED_BUMP_MAX_PATH_LEN →
       ' ' ∉ sym → '\n' ∉ sym → '\r' ∉ sym → sym ≠ [] →
       sym.length < SPEED_BUMP_MAX_SYMBOL_LEN →
       parse_target_spec (path ++ ':' :: sym)
           SPEED_BUMP_MAX_PATH_LEN SPEED_BUMP_MAX_SYMBOL_LEN d =
         (if sym.head? ≠ some '_' ∧
             ¬((sym.head?).any Char.isAlpha) then .error (-EINVAL)
          else .ok ⟨path, sym, d, 0⟩)) ∧
    parse_target_spec "/a:b 5000 pid=42".toList SPEED_BUMP_MAX_PATH_LEN
        SPEED_BUMP_MAX_SYMBOL_LEN 777 =
      .ok ⟨"/a".toList, "b".toList, 5000, 42⟩ := by
  refine ⟨?_, ?_, by decide⟩
  · intro path sym tail d hp hcol hplen hsp hsyne hsylen
    have hpne : path ≠ [] := by
      intro hnil
      rw [hnil] at hp
      cases hp
    have hplen0 : path.length ≠ 0 := fun hz => hpne (List.length_eq_zero.mp hz)
    have hhead : (path ++ ':' :: (sym ++ ' ' :: tail)).head? = some '/' := by
      rw [head?_append_left _ _ hpne]
      exact hp
    simp only [parse_target_spec, strchrIdx_append _ _ _ hcol]
    rw [if_neg (by push_neg; exact ⟨hplen0, hplen⟩)]
    rw [if_neg (by rw [hhead]; exact fun hne => hne rfl)]
    rw [take_append_head, drop_append_head]
    simp only [strchrIdx_append _ _ _ hsp]
    rw [if_neg (by
      push_neg
      exact ⟨fun hz => hsyne (List.length_eq_zero.mp hz), hsylen⟩)]
    rw [take_append_head, drop_append_head, parseOptionalFields_eq_spec]
  · intro path sym d hp hcol hplen hsp hnl hcr hsyne hsylen
    have hpne : path ≠ [] := by
      intro hnil
      rw [hnil] at hp
      cases hp
    have hplen0 : path.length ≠ 0 := fun hz => hpne (List.length_eq_zero.mp hz)
    have hhead : (path ++ ':' :: sym).head? = some '/' := by
      rw [head?_append_left _ _ hpne]
      exact hp
    have htrim : trimTrailLen sym ['\n', '\r'] sym.length = sym.length := by
      refine trimTrailLen_no_trim sym ['\n', '\r'] sym.length (Nat.le_refl _) ?_
      intro c hc hcin
      rcases List.mem_pair.mp hcin with h1 | h1
      · exact hnl (h1 ▸ hc)
      · exact hcr (h1 ▸ hc)
    simp only [parse_target_spec, strchrIdx_append _ _ _ hcol]
    rw [if_neg (by push_neg; exact ⟨hplen0, hplen⟩)]
    rw [if_neg (by rw [hhead]; exact fun hne => hne rfl)]
    rw [take_append_head, drop_append_head]
    simp only [strchrIdx_eq_none _ _ hsp, htrim]
    rw [if_neg (by
      push_neg
      exact ⟨fun hz => hsyne (List.length_eq_zero.mp hz), hsylen⟩)]
    rw [List.take_length]

/-- Witness for C7 at the concrete scenario of the claim: the
compositional clause at path /a, symbol b and remainder 5000 pid=42,
and the no-optional-fields clause. -/
theorem C7_optional_field_parsing_amended_witness :
    parse_target_spec ("/a".toList ++ ':' ::
        ("b".toList ++ ' ' :: "5000 pid=42".toList))
        SPEED_BUMP_MAX_PATH_LEN SPEED_BUMP_MAX_SYMBOL_LEN 777 =
      (match specOptionalFields "5000 pid=42".toList 777 with
       | .error e => .error e
       | .ok (delay, pid) =>
         if delay > SPEED_BUMP_MAX_DELAY_NS then .error (-ERANGE)
         else if "b".toList.head? ≠ some '_' ∧
                 ¬(("b".toList.head?).any Char.isAlpha) then .error (-EINVAL)
         else .ok ⟨"/a".toList, "b".toList, delay, pid⟩) ∧
    parse_target_spec ("/usr/bin/app".toList ++ ':' :: "main".toList)
        SPEED_BUMP_MAX_PATH_LEN SPEED_BUMP_MAX_SYMBOL_LEN 1000000 =
      (if "main".toList.head? ≠ some '_' ∧
          ¬(("main".toList.head?).any Char.isAlpha) then .error (-EINVAL)
       else .ok ⟨"/usr/bin/app".toList, "main".toList, 1000000, 0⟩) :=
  ⟨C7_optional_field_parsing_amended.1 "/a".toList "b".toList
      "5000 pid=42".toList 777 (by decide) (by decide) (by decide)
      (by decide) (by decide) (by decide),
   C7_optional_field_parsing_amended.2.1 "/usr/bin/app".toList
      "main".toList 1000000 (by decide) (by decide) (by decide) (by decide)
      (by decide) (by decide) (by decide) (by decide)⟩

/-- Claim C8: the matcher accepts exactly per the path-component rules -
with a wildcard suffix, prefix match on the path and exact match on the
symbol; without one, exact match on both; no colon or null input is
always false. -/
theorem C8_match_pattern_characterization :
    (∀ pat path sym ci, strchrIdx pat ':' = some ci →
       (0 < ci ∧ pat[ci - 1]? = some '*') →
       (speed_bump_match_target (some pat) (some path) (some sym) = true ↔
         (pat.take (ci - 1)).isPrefixOf path = true ∧
           sym = pat.drop (ci + 1))) ∧
    (∀ pat path sym ci, strchrIdx pat ':' = some ci →
       ¬(0 < ci ∧ pat[ci - 1]? = some '*') →
       (speed_bump_match_target (some pat) (some path) (some sym) = true ↔
         path = pat.take ci ∧ sym = pat.drop (ci + 1))) ∧
    (∀ pat path sym, strchrIdx pat ':' = none →
       speed_bump_match_target (some pat) (some path) (some sym) = false) ∧
    (∀ x y, speed_bump_match_target none x y = false) ∧
    (∀ x y, speed_bump_match_target x none y = false) ∧
    (∀ x y, speed_bump_match_target x y none = false) := by
  refine ⟨?_, ?_, ?_, ?_, ?_, ?_⟩
  · intro pat path sym ci hc hw
    rw [matchSome_eq, hc]
    simp [hw, and_comm]
  · intro pat path sym ci hc hw
    rw [matchSome_eq, hc]
    simp [hw, and_comm]
  · intro pat path sym hc
    rw [matchSome_eq, hc]
  · intro x y; cases x <;> cases y <;> rfl
  · intro x y; cases x <;> cases y <;> rfl
  · intro x y
    cases x with
    | none => rfl
    | some a => cases y <;> rfl

/-- Witness for C8 on concrete wildcard, exact, no-separator and null
inputs. -/
theorem C8_match_pattern_characterization_witness :
    speed_bump_match_target (some "/usr/*:main".toList)
      (some "/usr/bin/app".toList) (some "main".toList) = true ∧
    speed_bump_match_target (some "/usr/bin/app:main".toList)
      (some "/usr/bin/app".toList) (some "main".toList) = true ∧
    speed_bump_match_target (some "nocolon".toList)
      (some "/p".toList) (some "s".toList) = false ∧
    speed_bump_match_target none (some "/p".toList) (some "s".toList) = false := by
  refine ⟨?_, ?_, ?_, ?_⟩
  · exact (C8_match_pattern_characterization.1 "/usr/*:main".toList
      "/usr/bin/app".toList "main".toList 6 (by decide) (by decide)).mpr
      (by decide)
  · exact (C8_match_pattern_characterization.2.1 "/usr/bin/app:main".toList
      "/usr/bin/app".toList "main".toList 12 (by decide) (by decide)).mpr
      (by decide)
  · exact C8_match_pattern_characterization.2.2.1 "nocolon".toList
      "/p".toList "s".toList (by decide)
  · exact C8_match_pattern_characterization.2.2.2.1
      (some "/p".toList) (some "s".toList)

/-- Claim C9: matching the pattern built as path, colon, symbol against
that same path and symbol succeeds, for any path free of the separator
(registry paths are: the parser takes the path from before the first
colon of the command). -/
theorem C9_match_roundtrip (path sym : Str) (h : ':' ∉ path) :
    speed_bump_match_target (some (path ++ ':' :: sym)) (some path)
      (some sym) = true := by
  rw [matchSome_eq, strchrIdx_append path sym ':' h]
  have hdrop : (path ++ ':' :: sym).drop (path.length + 1) = sym := by
    have : path ++ ':' :: sym = (path ++ [':']) ++ sym := by simp
    rw [this]
    have hlen : (path ++ [':']).length = path.length + 1 := by simp
    rw [← hlen, List.drop_left]
  have htake : (path ++ ':' :: sym).take path.length = path := by
    have : path ++ ':' :: sym = path ++ ([':'] ++ sym) := by simp
    rw [this, List.take_left]
  by_cases hw : 0 < path.length ∧
      (path ++ ':' :: sym)[path.length - 1]? = some '*'
  · have htk : (path ++ ':' :: sym).take (path.length - 1) =
        path.take (path.length - 1) := by
      apply List.take_append_of_le_length
      omega
    simp only [hdrop, hw, if_pos, htk]
    have hp : (path.take (path.length - 1)).isPrefixOf path = true := by
      rw [List.isPrefixOf_iff_prefix]
      exact List.take_prefix _ _
    simp [hp]
  · simp [hdrop, htake, hw]

/-- Witness for C9 at a concrete path and symbol. -/
theorem C9_match_roundtrip_witness :
    speed_bump_match_target
      (some ("/usr/bin/app".toList ++ ':' :: "main".toList))
      (some "/usr/bin/app".toList) (some "main".toList) = true :=
  C9_match_roundtrip "/usr/bin/app".toList "main".toList (by decide)

/-! ## ELF claim theorems -/

/-- Stated from the claim wording: the offset of the first load segment
whose virtual-address range contains the symbol address, as
segment.file_offset + (vaddr - segment.vaddr); 0 when no load segment
contains the address. -/
def specLoadSegmentOffset (phdrs : List Phdr) (vaddr : Nat) : Nat :=
  match phdrs.find? (fun p => decide (p.p_type = PT_LOAD ∧
      p.p_vaddr ≤ vaddr ∧ vaddr < (p.p_vaddr + p.p_filesz) % 2 ^ 64)) with
  | some p => (p.p_offset + (vaddr - p.p_vaddr)) % 2 ^ 64
  | none => 0

/-- The byte-level program header loop computes the first-match offset
of the decoded headers. -/
theorem loadSegLoop_eq_spec (phb : Bytes) (vaddr : Nat) (idxs : List Nat) :
    loadSegLoop phb vaddr idxs =
      specLoadSegmentOffset (idxs.map (decodePhdr phb)) vaddr := by
  induction idxs with
  | nil => rfl
  | cons i rest ih =>
    unfold loadSegLoop specLoadSegmentOffset
    rw [List.map_cons, List.find?_cons]
    by_cases hcond : (decodePhdr phb i).p_type = PT_LOAD ∧
        (decodePhdr phb i).p_vaddr ≤ vaddr ∧
        vaddr < ((decodePhdr phb i).p_vaddr +
          (decodePhdr phb i).p_filesz) % 2 ^ 64
    · rw [if_neg (not_not_intro hcond.1), if_pos hcond.2,
        decide_eq_true hcond]
    · rw [decide_eq_false hcond]
      by_cases h1 : (decodePhdr phb i).p_type = PT_LOAD
      · have h2 : ¬((decodePhdr phb i).p_vaddr ≤ vaddr ∧
            vaddr < ((decodePhdr phb i).p_vaddr +
              (decodePhdr phb i).p_filesz) % 2 ^ 64) :=
          fun hh => hcond ⟨h1, hh⟩
        rw [if_neg (not_not_intro h1), if_neg h2]
        exact ih
      · rw [if_pos h1]
        exact ih

/-- Claim C5: with a valid header, readable section tables and a
successful scan yielding a non-zero symbol address v, resolve returns
exactly the converted offset; the conversion returns 0 when there are
no program headers or the program header read fails, and otherwise
computes segment.file_offset + (vaddr - segment.vaddr) for the first
load segment whose range contains the address, 0 when none does. -/
theorem C5_resolve_load_segment_offset :
    (∀ file name ehdr shb v,
       readEhdr file = some ehdr →
       kernelRead file ehdr.e_shoff (ehdr.e_shnum * 64) = some shb →
       ehdr.e_shstrndx < ehdr.e_shnum →
       (kernelRead file (decodeShdr shb ehdr.e_shstrndx).sh_offset
         (decodeShdr shb ehdr.e_shstrndx).sh_size).isSome = true →
       scanSections file shb ehdr.e_shnum name (List.range ehdr.e_shnum) =
         .ok v →
       v ≠ 0 →
       resolve_symbol_offset file name =
         .ok (vaddr_to_file_offset file ehdr v)) ∧
    (∀ file ehdr v, ehdr.e_phnum = 0 →
       vaddr_to_file_offset file ehdr v = 0) ∧
    (∀ file ehdr v phb,
       kernelRead file ehdr.e_phoff (ehdr.e_phnum * 56) = some phb →
       ehdr.e_phnum ≠ 0 →
       vaddr_to_file_offset file ehdr v =
         specLoadSegmentOffset
           ((List.range ehdr.e_phnum).map (decodePhdr phb)) v) ∧
    (∀ file ehdr v,
       kernelRead file ehdr.e_phoff (ehdr.e_phnum * 56) = none →
       vaddr_to_file_offset file ehdr v = 0) := by
  refine ⟨?_, ?_, ?_, ?_⟩
  · intro file name ehdr shb v hE hS hidx hstr hscan hv
    obtain ⟨sb, hsb⟩ := Option.isSome_iff_exists.mp hstr
    have hlt : ¬(ehdr.e_shstrndx ≥ ehdr.e_shnum) := by omega
    unfold resolve_symbol_offset
    simp only [hE, hS, hlt, if_false, hsb, hscan]
    simp [hv]
  · intro file ehdr v h
    unfold vaddr_to_file_offset
    simp [h]
  · intro file ehdr v phb hread hne
    unfold vaddr_to_file_offset
    simp only [hne, if_false, hread]
    exact loadSegLoop_eq_spec phb v (List.range ehdr.e_phnum)
  · intro file ehdr v hread
    unfold vaddr_to_file_offset
    by_cases h0 : ehdr.e_phnum = 0
    · simp [h0]
    · simp [h0, hread]

/-- Witness for C5 on the concrete well-formed image goodElf: the
composed resolution, the first-match conversion (528 = 512 + 16), and
the no-program-headers case. -/
theorem C5_resolve_load_segment_offset_witness :
    resolve_symbol_offset goodElf [102] =
      .ok (vaddr_to_file_offset goodElf ⟨64, 120, 1, 3, 2⟩ 4112) ∧
    vaddr_to_file_offset goodElf ⟨64, 120, 1, 3, 2⟩ 4112 =
      specLoadSegmentOffset
        ((List.range 1).map (decodePhdr (phdrBytes 1 512 4096 256))) 4112 ∧
    vaddr_to_file_offset goodElf ⟨64, 120, 0, 3, 2⟩ 4112 = 0 :=
  ⟨C5_resolve_load_segment_offset.1 goodElf [102] ⟨64, 120, 1, 3, 2⟩
      (shdrBytes 0 0 0 0 0 0 ++ shdrBytes 0 2 315 24 2 24 ++
        shdrBytes 0 3 312 3 0 0) 4112
      (by decide) (by decide) (by decide) (by decide) (by decide) (by decide),
   C5_resolve_load_segment_offset.2.2.1 goodElf ⟨64, 120, 1, 3, 2⟩ 4112
      (phdrBytes 1 512 4096 256) (by decide) (by decide),
   C5_resolve_load_segment_offset.2.1 goodElf ⟨64, 120, 0, 3, 2⟩ 4112 rfl⟩

/-- Claim C6, failing input: on an image whose string table lacks a
terminating NUL and whose one symbol entry has an in-range name offset,
the name comparison reads past the end of the table (the error value);
the other malformed inputs the claim lists do degrade to the zero
result - empty file, no ELF magic, truncated section header table,
out-of-range section-header string-table index, 32-bit class, and a
symbol entry whose name offset is at or past the string table size. -/
theorem C6_resolver_reads_past_unterminated_string_table :
    resolve_symbol_offset oobElf [97] = .error () ∧
    resolve_symbol_offset [] [97] = .ok 0 ∧
    resolve_symbol_offset (List.replicate 339 0) [97] = .ok 0 ∧
    resolve_symbol_offset (goodElf.take 100) [102] = .ok 0 ∧
    resolve_symbol_offset
      (elfHeaderBytes 64 120 1 3 7 ++ goodElf.drop 64) [102] = .ok 0 ∧
    resolve_symbol_offset (goodElf.set 4 1) [102] = .ok 0 ∧
    resolve_symbol_offset
      (elfHeaderBytes 64 120 1 3 2 ++ phdrBytes 1 512 4096 256 ++
        shdrBytes 0 0 0 0 0 0 ++ shdrBytes 0 2 315 24 2 24 ++
        shdrBytes 0 3 312 3 0 0 ++ [0, 102, 0] ++ symBytes 50 4112)
      [102] = .ok 0 := by
  refine ⟨by decide, by decide, by decide, by decide, by decide,
    by decide, by decide⟩

/-- Claim C10: a section scan that produces symbol address 0 - because
the symbol is absent, or present with st_value 0 - makes resolve return
0; zeroValElf contains the symbol f with st_value 0 (its symbol scan
finds it, with value 0) yet resolves to the same 0 as the absent name;
registration maps resolved offset 0 to ENOENT, and an add whose
registration step returned ENOENT fails with ENOENT leaving the
registry unchanged. -/
theorem C10_zero_vaddr_resolves_to_not_found :
    (∀ file name ehdr shb,
       readEhdr file = some ehdr →
       kernelRead file ehdr.e_shoff (ehdr.e_shnum * 64) = some shb →
       ehdr.e_shstrndx < ehdr.e_shnum →
       (kernelRead file (decodeShdr shb ehdr.e_shstrndx).sh_offset
         (decodeShdr shb ehdr.e_shstrndx).sh_size).isSome = true →
       scanSections file shb ehdr.e_shnum name (List.range ehdr.e_shnum) =
         .ok 0 →
       resolve_symbol_offset file name = .ok 0) ∧
    (scanSyms (symBytes 1 0) [0, 102, 0] 3 [102] (List.range 1) =
        .ok (some 0) ∧
     resolve_symbol_offset zeroValElf [102] = .ok 0 ∧
     resolve_symbol_offset goodElf [103] = .ok 0) ∧
    (∀ content sym att,
       resolve_symbol_offset content sym = .ok 0 →
       speed_bump_register_uprobe (.ok ()) true (.ok content) sym att =
         .ok (.error (-ENOENT))) ∧
    (∀ r spec regOff ps,
       parse_target_spec spec SPEED_BUMP_MAX_PATH_LEN
           SPEED_BUMP_MAX_SYMBOL_LEN r.default_delay = .ok ps →
       find_target r.targets ps.path ps.symbol = none →
       r.target_count < (SPEED_BUMP_MAX_TARGETS : Int) →
       add_target r spec true (-ENOENT) regOff = (-ENOENT, r)) := by
  refine ⟨?_, ⟨by decide, by decide, by decide⟩, ?_, ?_⟩
  · intro file name ehdr shb hE hS hidx hstr hscan
    obtain ⟨sb, hsb⟩ := Option.isSome_iff_exists.mp hstr
    have hlt : ¬(ehdr.e_shstrndx ≥ ehdr.e_shnum) := by omega
    unfold resolve_symbol_offset
    simp only [hE, hS, hlt, if_false, hsb, hscan]
    simp
  · intro content sym att hres
    unfold speed_bump_register_uprobe
    simp only [hres]
    simp
  · intro r spec regOff ps hp hfind hcount
    have hge : ¬(r.target_count ≥ (SPEED_BUMP_MAX_TARGETS : Int)) := by omega
    simp [add_target, hp, hfind, hge, ENOENT]

/-- Witness for C10 at the concrete zero-address image and a concrete
registry. -/
theorem C10_zero_vaddr_resolves_to_not_found_witness :
    resolve_symbol_offset zeroValElf [102] = .ok 0 ∧
    speed_bump_register_uprobe (.ok ()) true (.ok zeroValElf) [102]
        (.ok ()) = .ok (.error (-ENOENT)) ∧
    add_target (Registry.initWith 777) "/a:b".toList true (-ENOENT) 0 =
      (-ENOENT, Registry.initWith 777) :=
  ⟨C10_zero_vaddr_resolves_to_not_found.1 zeroValElf [102] ⟨64, 120, 1, 3, 2⟩
      (shdrBytes 0 0 0 0 0 0 ++ shdrBytes 0 2 315 24 2 24 ++
        shdrBytes 0 3 312 3 0 0)
      (by decide) (by decide) (by decide) (by decide) (by decide),
   C10_zero_vaddr_resolves_to_not_found.2.2.1 zeroValElf [102] (.ok ())
      (by decide),
   C10_zero_vaddr_resolves_to_not_found.2.2.2 (Registry.initWith 777)
      "/a:b".toList 0 ⟨"/a".toList, "b".toList, 777, 0⟩
      (by decide) (by decide) (by decide)⟩

end SpeedBump
